import Mathlib

/-!
Shallow embedding of the medbot diagnosis backend
(`src/backend/diagnose.py` and `src/backend/app.py`).

Modelling conventions:

* The reference tables (rows of `data/diseases.csv` and `data/medicines.csv`)
  are lists of records; the symptom vocabulary is a list of strings.
* The pre-trained classifier (`self.model`) is a black box exposing `classes_`
  and `predict_proba`; probabilities are modelled as rationals.
* `np.argsort(probs)` sorts ascending; on arrays of the size occurring here
  numpy's default sort degenerates to its insertion sort, which is stable
  (ties keep the smaller index first).  It is modelled by a stable insertion
  sort on the indices `0 .. n-1`.
* Python exceptions are modelled with `Except`; the FastAPI endpoint wrapper
  turns them into an HTTP error response, exactly following the
  `try`/`except` structure of the source.
-/

namespace Medbot

/-- Row of `data/diseases.csv`
(columns `name, description, severity, contagious, precautions`). -/
structure DiseaseRecord where
  name : String
  description : String
  severity : String
  contagious : String
  precautions : String
  deriving DecidableEq

/-- Row of `data/medicines.csv`
(columns `name, diagnosis, usage, dosage, side_effects`). -/
structure MedicineRecord where
  name : String
  diagnosis : String
  usage : String
  dosage : String
  side_effects : String
  deriving DecidableEq

/-- Black-box pre-trained classifier (`self.model`): its class enumeration
`classes_` and `predict_proba`, restricted to a single feature row as used in
`diagnose` (`self.model.predict_proba([features])[0]`). -/
structure Classifier where
  classes : List String
  predictProba : List ℚ → List ℚ

/-- State built by `DiagnosisSystem.__init__`: the loaded model and the three
reference tables, held read-only for the lifetime of the service. -/
structure DiagnosisSystem where
  model : Classifier
  symptom_columns : List String
  diseases_df : List DiseaseRecord
  medicines_df : List MedicineRecord

/-- Result dictionary assembled at the end of `DiagnosisSystem.diagnose`
(`diagnose.py` lines 108-114). -/
structure DiagnosisResult where
  diagnosis : String
  confidence : ℚ
  possible_diagnoses : List (String × ℚ)
  disease_info : DiseaseRecord
  medicines : List MedicineRecord
  deriving DecidableEq

/-- One step of the feature loop in `diagnose` (`diagnose.py` lines 64-67):
`if symptom in self.symptom_columns:
   features[self.symptom_columns.index(symptom)] = 1`. -/
def encStep (cols : List String) (v : List ℚ) (s : String) : List ℚ :=
  if s ∈ cols then v.set (List.indexOf s cols) 1 else v

/-- Feature encoder of `diagnose` (`diagnose.py` lines 62-67):
`features = np.zeros(len(self.symptom_columns))` followed by the loop over
the reported symptoms. -/
def encode (cols symptoms : List String) : List ℚ :=
  symptoms.foldl (encStep cols) (List.replicate cols.length 0)

/-- Insert index `i` into a list of indices sorted ascending by probability:
`i` goes in front of the first entry with strictly larger probability, hence
after every entry with equal probability (stable insertion). -/
def insertIdx (p : List ℚ) (i : Nat) : List Nat → List Nat
  | [] => [i]
  | j :: js =>
    if p.getD i 0 < p.getD j 0 then i :: j :: js else j :: insertIdx p i js

/-- Model of `np.argsort(probs)` (`diagnose.py` line 74): the indices
`0 .. n-1` sorted by probability ascending, ties keeping the smaller index
first (numpy's default sort is a stable insertion sort at these sizes). -/
def argsortAsc (p : List ℚ) : List Nat :=
  (List.range p.length).foldl (fun acc i => insertIdx p i acc) []

/-- `np.argsort(probs)[-3:][::-1]` (`diagnose.py` line 74): the indices of the
(at most) 3 largest probabilities, highest first. -/
def topIndices (p : List ℚ) : List Nat :=
  ((argsortAsc p).drop (p.length - 3)).reverse

/-- The `possible_diagnoses` comprehension (`diagnose.py` lines 75-81): for
each selected index the pair `(classes[idx], float(probs[idx]))`. -/
def top3 (classes : List String) (probs : List ℚ) : List (String × ℚ) :=
  (topIndices probs).map (fun i => (classes.getD i "", probs.getD i 0))

/-- Disease-info resolution (`diagnose.py` lines 86-97): the first row of
`diseases_df` whose `name` equals the primary diagnosis; on `IndexError`
(no such row) the placeholder record built in the `except` branch. -/
def lookupDisease (ds : List DiseaseRecord) (primary : String) : DiseaseRecord :=
  match ds.find? (fun d => d.name == primary) with
  | some d => d
  | none =>
    ⟨primary, "Information not available", "Unknown", "Unknown",
      "Consult a healthcare professional"⟩

/-- Medicine recommendation (`diagnose.py` lines 99-106): the rows of
`medicines_df` whose `diagnosis` column equals the primary diagnosis
(pandas `==`, case-sensitive string equality). -/
def recommendedMedicines (ms : List MedicineRecord) (primary : String) :
    List MedicineRecord :=
  ms.filter (fun m => m.diagnosis == primary)

/-- Python exceptions crossing the layers modelled here. -/
inductive PyExc where
  | httpException (status : Nat) (detail : String)
  | indexError
  deriving DecidableEq

/-- Python `str(e)` for the exceptions above (starlette's `HTTPException`
prints as `"<status>: <detail>"`). -/
def pyStr : PyExc → String
  | .httpException s d => toString s ++ ": " ++ d
  | .indexError => "list index out of range"

/-- `DiagnosisSystem.diagnose` (`diagnose.py` lines 57-121).  The only
exception the body itself can raise is the `IndexError` of
`possible_diagnoses[0]` when the classifier exposes no classes; the outer
`except` clause logs and re-raises, so it propagates unchanged. -/
def DiagnosisSystem.diagnose (sys : DiagnosisSystem) (symptoms : List String) :
    Except PyExc DiagnosisResult :=
  let features := encode sys.symptom_columns symptoms
  let probs := sys.model.predictProba features
  let possible := top3 sys.model.classes probs
  match possible with
  | [] => .error .indexError
  | first :: rest =>
    .ok ⟨first.1, first.2, first :: rest,
      lookupDisease sys.diseases_df first.1,
      recommendedMedicines sys.medicines_df first.1⟩

/-- Response of a FastAPI endpoint as the HTTP caller sees it. -/
inductive ApiResponse where
  | ok (result : DiagnosisResult)
  | httpError (status : Nat) (detail : String)
  deriving DecidableEq

/-- The `/diagnose` endpoint (`app.py` lines 48-59).  The `try` body raises
`HTTPException(status_code=400)` on an empty symptom list; the blanket
`except Exception as e: raise HTTPException(status_code=500, detail=str(e))`
catches every exception — `HTTPException` included — and re-raises with
status 500. -/
def diagnoseEndpoint (sys : DiagnosisSystem) (symptoms : List String) :
    ApiResponse :=
  let body : Except PyExc DiagnosisResult :=
    if symptoms.isEmpty then .error (.httpException 400 "No symptoms provided")
    else sys.diagnose symptoms
  match body with
  | .ok r => .ok r
  | .error e => .httpError 500 (pyStr e)

/-- Outcome of the medicine text matching in `/analyze_medicine`: either the
`not_found` or the `success` payload, both carrying the processed text. -/
inductive MatchResult where
  | notFound (extracted_text : String)
  | success (medicines : List MedicineRecord) (extracted_text : String)
  deriving DecidableEq

/-- Python `str.lower()`: lowercase every character. -/
def pyLower (s : String) : String := ⟨s.data.map Char.toLower⟩

/-- Python `str.strip()`: remove leading and trailing whitespace. -/
def pyStrip (s : String) : String :=
  ⟨((s.data.dropWhile Char.isWhitespace).reverse.dropWhile Char.isWhitespace).reverse⟩

/-- The `matches` list of `analyze_medicine` (`app.py` lines 95-100): the
catalog rows, in row order, whose lowercased `name` occurs as a contiguous
substring (Python `in`) of the processed text. -/
def matchSet (ms : List MedicineRecord) (text : String) : List MedicineRecord :=
  ms.filter (fun m => decide ((pyLower m.name).data <:+: text.data))

/-- Text-matching tail of `analyze_medicine` (`app.py` lines 91-115):
`text = text.strip().lower()`, collect the matching rows, then return the
`not_found` respectively `success` response. -/
def analyzeMedicineText (ms : List MedicineRecord) (rawText : String) :
    MatchResult :=
  let text := pyLower (pyStrip rawText)
  let found := matchSet ms text
  if found.isEmpty then .notFound text else .success found text

/-- Outcome of the file accesses performed by `DiagnosisSystem.__init__`:
whether the two model files exist, and the result of each of the four loads
(`error` models a raised exception: missing, unreadable or malformed source,
including `pd.errors.ParserError`, all of which `__init__` re-raises). -/
structure InitSources where
  modelFileExists : Bool
  columnsFileExists : Bool
  loadModel : Except String Classifier
  loadColumns : Except String (List String)
  loadDiseases : Except String (List DiseaseRecord)
  loadMedicines : Except String (List MedicineRecord)

/-- `DiagnosisSystem.__init__` (`diagnose.py` lines 13-55): the existence
check on the two model files, the four loads (every raised exception
propagates, the outer `except` re-raises), then the emptiness check on the
two loaded data frames. -/
def initDiagnosisSystem (src : InitSources) : Except String DiagnosisSystem :=
  if !src.modelFileExists || !src.columnsFileExists then
    .error "Model files not found"
  else do
    let model ← src.loadModel
    let columns ← src.loadColumns
    let diseases ← src.loadDiseases
    let medicines ← src.loadMedicines
    if diseases.isEmpty || medicines.isEmpty then
      .error "CSV files are empty"
    else
      .ok ⟨model, columns, diseases, medicines⟩

/-- Strict order in which `argsortAsc` arranges the indices: by probability
ascending, ties by index ascending. -/
def keyLT (p : List ℚ) (i j : Nat) : Prop :=
  p.getD i 0 < p.getD j 0 ∨ (p.getD i 0 = p.getD j 0 ∧ i < j)

instance (p : List ℚ) (i j : Nat) : Decidable (keyLT p i j) :=
  inferInstanceAs (Decidable (_ ∨ _))

/-! ### Concrete fixtures used in witnesses and counterexamples -/

/-- Concrete two-class classifier with distinct probabilities. -/
def exClassifier : Classifier := ⟨["Cold", "Flu"], fun _ => [mkRat 1 4, mkRat 3 4]⟩

/-- Concrete disease row. -/
def exDisease : DiseaseRecord := ⟨"Flu", "Viral infection", "Moderate", "Yes", "Rest"⟩

/-- Concrete medicine row, associated with diagnosis `"Flu"`. -/
def exMedicine : MedicineRecord := ⟨"Tamiflu", "Flu", "Oral", "75mg", "Nausea"⟩

/-- Concrete fully loaded system. -/
def exSystem : DiagnosisSystem :=
  ⟨exClassifier, ["fever", "cough"], [exDisease], [exMedicine]⟩

/-- Concrete system whose disease table has no row for the primary diagnosis
that `exClassifier` produces. -/
def sysNoFlu : DiagnosisSystem :=
  ⟨exClassifier, ["fever", "cough"],
    [⟨"Migraine", "Recurrent headaches", "Low", "No", "Rest"⟩], [exMedicine]⟩

/-- Concrete catalog row used in the text-matcher witness. -/
def paracetamolRec : MedicineRecord := ⟨"Paracetamol", "Fever", "Oral", "500mg", "Rare"⟩

/-- Init sources where every load succeeds and both CSV tables are nonempty,
but the symptom vocabulary file loads as the empty list. -/
def emptyVocabSources : InitSources :=
  ⟨true, true, .ok exClassifier, .ok [], .ok [exDisease], .ok [exMedicine]⟩

/-! ### Properties of the feature encoder -/

theorem foldl_encStep_length (cols S : List String) (v : List ℚ) :
    (S.foldl (encStep cols) v).length = v.length := by
  induction S generalizing v with
  | nil => rfl
  | cons s S ih =>
    rw [List.foldl_cons, ih]
    unfold encStep
    split
    · exact List.length_set ..
    · rfl

theorem encode_length (cols S : List String) :
    (encode cols S).length = cols.length := by
  rw [encode, foldl_encStep_length, List.length_replicate]

theorem encStep_getD (cols : List String) (v : List ℚ) (s : String)
    (hv : v.length = cols.length) {i : Nat} (hi : i < cols.length) :
    (encStep cols v s).getD i 0 =
      if s ∈ cols ∧ List.indexOf s cols = i then 1 else v.getD i 0 := by
  unfold encStep
  by_cases hs : s ∈ cols
  · rw [if_pos hs]
    have hset : i < (v.set (List.indexOf s cols) 1).length := by
      rw [List.length_set, hv]; exact hi
    by_cases hidx : List.indexOf s cols = i
    · rw [if_pos ⟨hs, hidx⟩, List.getD_eq_getElem _ _ hset, List.getElem_set,
        if_pos hidx]
    · rw [if_neg (fun h => hidx h.2), List.getD_eq_getElem _ _ hset,
        List.getElem_set, if_neg hidx, List.getD_eq_getElem _ _ (hv ▸ hi)]
  · rw [if_neg hs, if_neg (fun h => hs h.1)]

theorem foldl_encStep_getD (cols : List String) (S : List String) (v : List ℚ)
    (hv : v.length = cols.length) {i : Nat} (hi : i < cols.length) :
    (S.foldl (encStep cols) v).getD i 0 =
      if ∃ s ∈ S, s ∈ cols ∧ List.indexOf s cols = i then 1 else v.getD i 0 := by
  induction S generalizing v with
  | nil => simp
  | cons s S ih =>
    have hv' : (encStep cols v s).length = cols.length := by
      unfold encStep; split
      · rw [List.length_set, hv]
      · exact hv
    rw [List.foldl_cons, ih (encStep cols v s) hv', encStep_getD cols v s hv hi]
    by_cases hA : ∃ x ∈ S, x ∈ cols ∧ List.indexOf x cols = i
    · rw [if_pos hA, if_pos]
      rw [List.exists_mem_cons_iff]
      exact Or.inr hA
    · rw [if_neg hA]
      by_cases hB : s ∈ cols ∧ List.indexOf s cols = i
      · rw [if_pos hB, if_pos]
        rw [List.exists_mem_cons_iff]
        exact Or.inl hB
      · rw [if_neg hB, if_neg]
        rw [List.exists_mem_cons_iff]
        rintro (h | h)
        · exact hB h
        · exact hA h

theorem encode_getD (cols S : List String) {i : Nat} (hi : i < cols.length) :
    (encode cols S).getD i 0 =
      if ∃ s ∈ S, s ∈ cols ∧ List.indexOf s cols = i then 1 else 0 := by
  rw [encode, foldl_encStep_getD cols S _ (List.length_replicate ..) hi]
  have : (List.replicate cols.length (0 : ℚ)).getD i 0 = 0 := by
    rw [List.getD_eq_getElem _ _ (by simpa using hi), List.getElem_replicate]
  rw [this]

theorem encode_congr_mem (cols S S' : List String)
    (h : ∀ x, x ∈ S ↔ x ∈ S') : encode cols S = encode cols S' := by
  apply List.ext_getElem (by rw [encode_length, encode_length])
  intro i h₁ h₂
  have hi : i < cols.length := by rwa [encode_length] at h₁
  rw [← List.getD_eq_getElem _ 0 h₁, ← List.getD_eq_getElem _ 0 h₂,
    encode_getD cols S hi, encode_getD cols S' hi]
  congr 1
  simp only [eq_iff_iff]
  constructor
  · rintro ⟨s, hs, hrest⟩; exact ⟨s, (h s).mp hs, hrest⟩
  · rintro ⟨s, hs, hrest⟩; exact ⟨s, (h s).mpr hs, hrest⟩

theorem encode_append_singleton (cols S : List String) (s : String) :
    encode cols (S ++ [s]) = encStep cols (encode cols S) s := by
  rw [encode, encode, List.foldl_append, List.foldl_cons, List.foldl_nil]

theorem encode_count (cols S : List String) :
    (encode cols S).count 1 = (S.toFinset ∩ cols.toFinset).card := by
  induction S with
  | nil =>
    rw [encode, List.foldl_nil, List.count_replicate]
    simp
  | cons s S ih =>
    by_cases hsS : s ∈ S
    · rw [encode_congr_mem cols (s :: S) S
        (fun x => by simp only [List.mem_cons]; constructor
                     · rintro (rfl | h); exacts [hsS, h]
                     · exact Or.inr), ih]
      congr 1
      rw [List.toFinset_cons, Finset.insert_eq_self.mpr (by simpa using hsS)]
    · have hstep : encode cols (s :: S) = encStep cols (encode cols S) s := by
        rw [encode_congr_mem cols (s :: S) (S ++ [s])
          (fun x => by simp [List.mem_cons, List.mem_append, or_comm]),
          encode_append_singleton]
      by_cases hsc : s ∈ cols
      · have hidx : List.indexOf s cols < cols.length :=
          List.indexOf_lt_length.mpr hsc
        have hlen : (encode cols S).length = cols.length := encode_length ..
        have hidx' : List.indexOf s cols < (encode cols S).length := by
          rw [hlen]; exact hidx
        have h0 : (encode cols S)[List.indexOf s cols] = 0 := by
          rw [← List.getD_eq_getElem _ 0 hidx', encode_getD cols S hidx, if_neg]
          rintro ⟨x, hxS, hxc, hxi⟩
          have hx : x = s := by
            have h₁ := List.getElem_indexOf (a := x) (l := cols)
              (List.indexOf_lt_length.mpr hxc)
            have h₂ := List.getElem_indexOf (a := s) (l := cols) hidx
            rw [← h₁, ← h₂]
            congr 1
          exact hsS (hx ▸ hxS)
        rw [hstep, encStep, if_pos hsc, List.count_set 1 1 _ _ hidx', h0]
        have hbeq : (((0 : ℚ)) == 1) = false := by decide
        rw [hbeq, List.toFinset_cons, Finset.insert_inter_of_mem (by simpa using hsc),
          Finset.card_insert_of_not_mem
            (fun hmem => hsS (by simpa using (Finset.mem_inter.mp hmem).1))]
        simp [ih]
      · rw [hstep, encStep, if_neg hsc, ih]
        congr 1
        rw [List.toFinset_cons, Finset.insert_inter_of_not_mem (by simpa using hsc)]

/-! ### Properties of the argsort-based top-3 selection -/

theorem keyLT_trans {p : List ℚ} {i j k : Nat}
    (h₁ : keyLT p i j) (h₂ : keyLT p j k) : keyLT p i k := by
  rcases h₁ with h₁ | ⟨e₁, l₁⟩ <;> rcases h₂ with h₂ | ⟨e₂, l₂⟩
  · exact Or.inl (h₁.trans h₂)
  · exact Or.inl (lt_of_lt_of_eq h₁ e₂)
  · exact Or.inl (lt_of_eq_of_lt e₁ h₂)
  · exact Or.inr ⟨e₁.trans e₂, l₁.trans l₂⟩

theorem keyLT_ne {p : List ℚ} {i j : Nat} (h : keyLT p i j) : i ≠ j := by
  rintro rfl
  rcases h with h | ⟨_, h⟩
  · exact lt_irrefl _ h
  · exact lt_irrefl _ h

theorem mem_insertIdx {p : List ℚ} {i x : Nat} {l : List Nat} :
    x ∈ insertIdx p i l ↔ x = i ∨ x ∈ l := by
  induction l with
  | nil => simp [insertIdx]
  | cons j js ih =>
    unfold insertIdx
    split
    · simp [List.mem_cons]
    · simp only [List.mem_cons, ih]
      tauto

theorem pairwise_insertIdx {p : List ℚ} {i : Nat} {l : List Nat}
    (hp : l.Pairwise (keyLT p)) (hb : ∀ j ∈ l, j < i) :
    (insertIdx p i l).Pairwise (keyLT p) := by
  induction l with
  | nil => simp [insertIdx]
  | cons j js ih =>
    rw [List.pairwise_cons] at hp
    obtain ⟨hj, hjs⟩ := hp
    unfold insertIdx
    split
    · rename_i hlt
      refine List.Pairwise.cons ?_ (List.Pairwise.cons hj hjs)
      intro x hx
      rcases List.mem_cons.mp hx with rfl | hx
      · exact Or.inl hlt
      · exact keyLT_trans (Or.inl hlt) (hj x hx)
    · rename_i hge
      refine List.Pairwise.cons ?_
        (ih hjs (fun x hx => hb x (List.mem_cons_of_mem _ hx)))
      intro x hx
      rcases mem_insertIdx.mp hx with rfl | hx
      · rcases lt_or_eq_of_le (le_of_not_lt hge) with h | h
        · exact Or.inl h
        · exact Or.inr ⟨h, hb j (List.mem_cons_self _ _)⟩
      · exact hj x hx

theorem argsort_aux_spec (p : List ℚ) (n : Nat) :
    ((List.range n).foldl (fun acc i => insertIdx p i acc) []).Pairwise (keyLT p) ∧
    (∀ x, x ∈ (List.range n).foldl (fun acc i => insertIdx p i acc) [] ↔ x < n) := by
  induction n with
  | zero => simp
  | succ n ih =>
    rw [List.range_succ, List.foldl_append, List.foldl_cons, List.foldl_nil]
    obtain ⟨hp, hm⟩ := ih
    refine ⟨pairwise_insertIdx hp (fun j hj => (hm j).mp hj), fun x => ?_⟩
    rw [mem_insertIdx]
    constructor
    · rintro (rfl | hx)
      · omega
      · exact Nat.lt_succ_of_lt ((hm x).mp hx)
    · intro hx
      rcases Nat.lt_succ_iff_lt_or_eq.mp hx with h | h
      · exact Or.inr ((hm x).mpr h)
      · exact Or.inl h

theorem argsortAsc_pairwise (p : List ℚ) :
    (argsortAsc p).Pairwise (keyLT p) :=
  (argsort_aux_spec p p.length).1

theorem mem_argsortAsc {p : List ℚ} {x : Nat} :
    x ∈ argsortAsc p ↔ x < p.length :=
  (argsort_aux_spec p p.length).2 x

theorem argsortAsc_nodup (p : List ℚ) : (argsortAsc p).Nodup :=
  (argsortAsc_pairwise p).imp keyLT_ne

theorem argsortAsc_perm (p : List ℚ) :
    (argsortAsc p).Perm (List.range p.length) :=
  (List.perm_ext_iff_of_nodup (argsortAsc_nodup p) (List.nodup_range _)).mpr
    (fun x => by rw [mem_argsortAsc, List.mem_range])

theorem argsortAsc_length (p : List ℚ) :
    (argsortAsc p).length = p.length := by
  rw [(argsortAsc_perm p).length_eq, List.length_range]

theorem topIndices_pairwise (p : List ℚ) :
    (topIndices p).Pairwise (fun i j => keyLT p j i) := by
  rw [topIndices, List.pairwise_reverse]
  exact List.Pairwise.sublist (List.drop_sublist _ _) (argsortAsc_pairwise p)

theorem mem_topIndices {p : List ℚ} {x : Nat} :
    x ∈ topIndices p ↔ x ∈ (argsortAsc p).drop (p.length - 3) :=
  List.mem_reverse

theorem mem_topIndices_lt {p : List ℚ} {x : Nat} (h : x ∈ topIndices p) :
    x < p.length :=
  mem_argsortAsc.mp ((List.drop_sublist _ _).subset (mem_topIndices.mp h))

theorem topIndices_length (p : List ℚ) :
    (topIndices p).length = min 3 p.length := by
  rw [topIndices, List.length_reverse, List.length_drop, argsortAsc_length]
  omega

theorem topIndices_top {p : List ℚ} {j : Nat} (hj : j < p.length)
    (hnot : j ∉ topIndices p) {i : Nat} (hi : i ∈ topIndices p) : keyLT p j i := by
  have hsplit := List.take_append_drop (p.length - 3) (argsortAsc p)
  have hpw := argsortAsc_pairwise p
  rw [← hsplit, List.pairwise_append] at hpw
  have hjmem : j ∈ argsortAsc p := mem_argsortAsc.mpr hj
  rw [← hsplit, List.mem_append] at hjmem
  rcases hjmem with hjt | hjd
  · exact hpw.2.2 j hjt i (mem_topIndices.mp hi)
  · exact absurd (mem_topIndices.mpr hjd) hnot

theorem reverse_drop_eq_take_reverse {α : Type} (l : List α) (k : Nat) :
    (l.drop k).reverse = l.reverse.take (l.length - k) := by
  have hsplit : l.reverse = (l.drop k).reverse ++ (l.take k).reverse := by
    rw [← List.reverse_append, List.take_append_drop]
  have hA : ((l.drop k).reverse).length = l.length - k := by
    rw [List.length_reverse, List.length_drop]
  rw [hsplit, ← hA, List.take_left]

theorem topIndices_eq_take (p : List ℚ) :
    topIndices p = ((argsortAsc p).reverse).take 3 := by
  have hlen : ((argsortAsc p).reverse).length = p.length := by
    rw [List.length_reverse, argsortAsc_length]
  rw [topIndices, reverse_drop_eq_take_reverse, argsortAsc_length]
  rcases Nat.le_total 3 p.length with h | h
  · have : p.length - (p.length - 3) = 3 := by omega
    rw [this]
  · have h3 : p.length - (p.length - 3) = p.length := by omega
    rw [h3, ← hlen, List.take_length, List.take_of_length_le (by omega)]

theorem map_range_zip (c : List String) (p : List ℚ) (h : c.length = p.length) :
    (List.range p.length).map (fun i => (c.getD i "", p.getD i 0)) = c.zip p := by
  induction p generalizing c with
  | nil => simp
  | cons q ps ih =>
    cases c with
    | nil => simp at h
    | cons s cs =>
      rw [List.length_cons, List.range_succ_eq_map, List.map_cons, List.map_map,
        List.zip_cons_cons]
      congr 1
      have hmap : ∀ i ∈ List.range ps.length,
          ((fun i => ((s :: cs).getD i "", (q :: ps).getD i 0)) ∘ Nat.succ) i =
          (fun i => (cs.getD i "", ps.getD i 0)) i := by
        intro i _
        simp [Function.comp, List.getD_cons_succ]
      rw [List.map_congr_left hmap, ih cs (by simpa using h)]

theorem sorted_pairs_of_nodup {c : List String} {p : List ℚ} (hnd : p.Nodup) :
    (((argsortAsc p).reverse).map (fun i => (c.getD i "", p.getD i 0))).Pairwise
      (fun x y : String × ℚ => y.2 < x.2) := by
  rw [List.pairwise_map]
  have hrev : ((argsortAsc p).reverse).Pairwise (fun i j => keyLT p j i) := by
    rw [List.pairwise_reverse]
    exact argsortAsc_pairwise p
  refine hrev.imp_of_mem ?_
  intro i j hi hj hk
  have hi' : i < p.length := mem_argsortAsc.mp (List.mem_reverse.mp hi)
  have hj' : j < p.length := mem_argsortAsc.mp (List.mem_reverse.mp hj)
  rcases hk with h | ⟨he, hlt⟩
  · exact h
  · exfalso
    rw [List.getD_eq_getElem p 0 hj', List.getD_eq_getElem p 0 hi'] at he
    have : j = i := (hnd.getElem_inj_iff).mp he
    omega

theorem top3_eq_take_sorted (c : List String) (p : List ℚ) :
    top3 c p =
      (((argsortAsc p).reverse).map (fun i => (c.getD i "", p.getD i 0))).take 3 := by
  rw [top3, topIndices_eq_take, List.map_take]

theorem sorted_pairs_perm_zip (c : List String) (p : List ℚ)
    (h : c.length = p.length) :
    (((argsortAsc p).reverse).map (fun i => (c.getD i "", p.getD i 0))).Perm
      (c.zip p) := by
  have h1 : ((argsortAsc p).reverse).Perm (List.range p.length) :=
    (List.reverse_perm _).trans (argsortAsc_perm p)
  have h2 := h1.map (fun i => (c.getD i "", p.getD i 0))
  rwa [map_range_zip c p h] at h2

/-! ### Claims -/

/-- C1: on an empty symptom list the `/diagnose` endpoint never reaches
feature encoding or classifier inference — the response does not depend on
the loaded system at all — but the error the caller sees carries HTTP status
500, not 400: the `HTTPException(status_code=400)` raised by the validation
is caught by the blanket `except Exception` clause and re-raised as an
internal server error, so no invalid-request condition is visible to the
caller. -/
theorem diagnoseEndpoint_empty_gives_500 (sys : DiagnosisSystem) :
    diagnoseEndpoint sys [] =
      ApiResponse.httpError 500
        (pyStr (PyExc.httpException 400 "No symptoms provided")) ∧
    ∀ sys' : DiagnosisSystem, diagnoseEndpoint sys [] = diagnoseEndpoint sys' [] :=
  ⟨rfl, fun _ => rfl⟩

/-- C2 counterexample: with classes `["A", "B"]` and the tied distribution
`[1/2, 1/2]`, the code ranks `"B"` — the class appearing *later* in the
classifier ordering — first, while the claim predicts that the earlier class
`"A"` is ranked first on an exact tie. -/
theorem top3_tie_earlier_first_false :
    top3 ["A", "B"] [mkRat 1 2, mkRat 1 2] =
      [("B", mkRat 1 2), ("A", mkRat 1 2)] ∧
    top3 ["A", "B"] [mkRat 1 2, mkRat 1 2] ≠
      [("A", mkRat 1 2), ("B", mkRat 1 2)] := by
  decide

/-- C2 (amended): `diagnose` returns as `possible_diagnoses` the pairs at the
indices selected by `topIndices`; that selection has `min 3 n` entries, is
ordered by probability descending, breaks exact probability ties by ranking
the class appearing *later* in the classifier ordering first, and dominates
every non-selected class (strictly larger probability, or equal probability
and a later position). -/
theorem diagnose_top3_ranking :
    (∀ (sys : DiagnosisSystem) (symptoms : List String) (r : DiagnosisResult),
      sys.diagnose symptoms = .ok r →
      r.possible_diagnoses =
        top3 sys.model.classes
          (sys.model.predictProba (encode sys.symptom_columns symptoms))) ∧
    (∀ (c : List String) (p : List ℚ),
      top3 c p = (topIndices p).map (fun i => (c.getD i "", p.getD i 0)) ∧
      (topIndices p).length = min 3 p.length ∧
      (topIndices p).Pairwise
        (fun i j => p.getD j 0 < p.getD i 0 ∨ (p.getD j 0 = p.getD i 0 ∧ j < i)) ∧
      (∀ j, j < p.length → j ∉ topIndices p → ∀ i ∈ topIndices p,
        p.getD j 0 < p.getD i 0 ∨ (p.getD j 0 = p.getD i 0 ∧ j < i))) := by
  constructor
  · intro sys symptoms r h
    rw [DiagnosisSystem.diagnose] at h
    split at h
    · exact absurd h (by simp)
    · rename_i first rest heq
      cases h
      exact heq.symm
  · intro c p
    exact ⟨rfl, topIndices_length p, topIndices_pairwise p,
      fun j hj hnot i hi => topIndices_top hj hnot hi⟩

/-- C3 counterexample: on a lookup miss the placeholder record uses the
capitalized strings of the source (`"Information not available"`, `"Unknown"`,
`"Consult a healthcare professional"`), not the lowercase strings the claim
demands exact equality with. -/
theorem placeholder_lowercase_false :
    lookupDisease [⟨"Migraine", "Recurrent headaches", "Low", "No", "Rest"⟩] "Flu" =
      ⟨"Flu", "Information not available", "Unknown", "Unknown",
        "Consult a healthcare professional"⟩ ∧
    (lookupDisease [⟨"Migraine", "Recurrent headaches", "Low", "No", "Rest"⟩]
        "Flu").description ≠ "information not available" ∧
    (lookupDisease [⟨"Migraine", "Recurrent headaches", "Low", "No", "Rest"⟩]
        "Flu").severity ≠ "unknown" := by
  decide

/-- C3 (amended): whenever the primary diagnosis has no exact-match row in the
disease table, `diagnose` still succeeds and returns the placeholder record
with name = primary diagnosis, description = "Information not available",
severity = "Unknown", contagious = "Unknown", precautions = "Consult a
healthcare professional" (the source's capitalization); the miss never
surfaces as an error. -/
theorem lookup_miss_placeholder (sys : DiagnosisSystem) (symptoms : List String)
    (r : DiagnosisResult) (h : sys.diagnose symptoms = .ok r)
    (hmiss : ∀ d ∈ sys.diseases_df, d.name ≠ r.diagnosis) :
    r.disease_info =
      ⟨r.diagnosis, "Information not available", "Unknown", "Unknown",
        "Consult a healthcare professional"⟩ := by
  rw [DiagnosisSystem.diagnose] at h
  split at h
  · exact absurd h (by simp)
  · rename_i first rest heq
    cases h
    rw [lookupDisease]
    have hnone :
        sys.diseases_df.find? (fun d => d.name == first.1) = none := by
      rw [List.find?_eq_none]
      intro d hd
      simpa using hmiss d hd
    rw [hnone]

/-- C3 witness: the amended placeholder theorem applied to the concrete
system `sysNoFlu`, whose disease table has no `"Flu"` row. -/
theorem lookup_miss_placeholder_witness :
    (⟨"Flu", mkRat 3 4, [("Flu", mkRat 3 4), ("Cold", mkRat 1 4)],
      ⟨"Flu", "Information not available", "Unknown", "Unknown",
        "Consult a healthcare professional"⟩,
      [exMedicine]⟩ : DiagnosisResult).disease_info =
      ⟨"Flu", "Information not available", "Unknown", "Unknown",
        "Consult a healthcare professional"⟩ :=
  lookup_miss_placeholder sysNoFlu ["fever"]
    ⟨"Flu", mkRat 3 4, [("Flu", mkRat 3 4), ("Cold", mkRat 1 4)],
      ⟨"Flu", "Information not available", "Unknown", "Unknown",
        "Consult a healthcare professional"⟩,
      [exMedicine]⟩ (by rfl) (by decide)

/-- C4: the `medicines` list of a successful diagnosis is exactly the list of
catalog rows whose `diagnosis` field is string-equal (case-sensitive) to the
primary diagnosis; a row with diagnosis `"Flu"` is included for primary
diagnosis `"Flu"` and excluded for `"flu"`, and the empty list is an ordinary
value. -/
theorem recommended_medicines_exact_match :
    (∀ (sys : DiagnosisSystem) (symptoms : List String) (r : DiagnosisResult),
      sys.diagnose symptoms = .ok r →
      r.medicines = recommendedMedicines sys.medicines_df r.diagnosis) ∧
    (∀ (ms : List MedicineRecord) (primary : String) (m : MedicineRecord),
      m ∈ recommendedMedicines ms primary ↔ m ∈ ms ∧ m.diagnosis = primary) ∧
    (exMedicine ∈ recommendedMedicines [exMedicine] "Flu" ∧
      exMedicine ∉ recommendedMedicines [exMedicine] "flu" ∧
      recommendedMedicines [exMedicine] "flu" = []) := by
  refine ⟨?_, ?_, by decide⟩
  · intro sys symptoms r h
    rw [DiagnosisSystem.diagnose] at h
    split at h
    · exact absurd h (by simp)
    · cases h
      rfl
  · intro ms primary m
    rw [recommendedMedicines, List.mem_filter]
    simp

/-- C5: for every vocabulary and every reported symptom list, the encoded
feature vector has length equal to the vocabulary size, entries only `0` or
`1`, exactly `|S ∩ vocabulary|` entries equal to `1`; the empty input encodes
to the all-zeros vector, and the result depends only on the *set* of reported
symptoms (duplicates and order contribute nothing); unknown identifiers are
silently ignored — `encode` is total. -/
theorem encode_feature_vector_spec (cols S : List String) :
    (encode cols S).length = cols.length ∧
    (∀ x ∈ encode cols S, x = 0 ∨ x = 1) ∧
    (encode cols S).count 1 = (S.toFinset ∩ cols.toFinset).card ∧
    encode cols [] = List.replicate cols.length 0 ∧
    (∀ S', (∀ x, x ∈ S ↔ x ∈ S') → encode cols S = encode cols S') := by
  refine ⟨encode_length cols S, ?_, encode_count cols S, rfl,
    fun S' h => encode_congr_mem cols S S' h⟩
  intro x hx
  obtain ⟨i, hlt, hget⟩ := List.mem_iff_getElem.mp hx
  have hi : i < cols.length := by rwa [encode_length] at hlt
  rw [← List.getD_eq_getElem _ 0 hlt, encode_getD cols S hi] at hget
  split_ifs at hget
  · exact Or.inr hget.symm
  · exact Or.inl hget.symm

/-- C6 counterexample: the two enumerations `["A", "B"]` and `["B", "A"]` of
the same tied class-to-probability mapping produce different ranked results. -/
theorem top3_reorder_counterexample :
    (["A", "B"].zip [mkRat 1 2, mkRat 1 2]).Perm
      (["B", "A"].zip [mkRat 1 2, mkRat 1 2]) ∧
    top3 ["A", "B"] [mkRat 1 2, mkRat 1 2] ≠
      top3 ["B", "A"] [mkRat 1 2, mkRat 1 2] := by
  decide

/-- C6 (amended): for a fixed class-to-probability mapping whose probabilities
are pairwise distinct, the top-3 selection is invariant under permutations of
the classifier's class enumeration. -/
theorem top3_perm_invariant (c₁ c₂ : List String) (p₁ p₂ : List ℚ)
    (h₁ : c₁.length = p₁.length) (h₂ : c₂.length = p₂.length)
    (hperm : (c₁.zip p₁).Perm (c₂.zip p₂)) (hnd : p₁.Nodup) :
    top3 c₁ p₁ = top3 c₂ p₂ := by
  have e₁ : List.map Prod.snd (c₁.zip p₁) = p₁ :=
    List.map_snd_zip c₁ p₁ (le_of_eq h₁.symm)
  have e₂ : List.map Prod.snd (c₂.zip p₂) = p₂ :=
    List.map_snd_zip c₂ p₂ (le_of_eq h₂.symm)
  have hp12 : p₁.Perm p₂ := by
    have h := hperm.map Prod.snd
    rwa [e₁, e₂] at h
  have hnd₂ : p₂.Nodup := hp12.nodup hnd
  have hs₁ := sorted_pairs_of_nodup (c := c₁) hnd
  have hs₂ := sorted_pairs_of_nodup (c := c₂) hnd₂
  have hpm :
      (((argsortAsc p₁).reverse).map (fun i => (c₁.getD i "", p₁.getD i 0))).Perm
        (((argsortAsc p₂).reverse).map (fun i => (c₂.getD i "", p₂.getD i 0))) :=
    (sorted_pairs_perm_zip c₁ p₁ h₁).trans
      (hperm.trans (sorted_pairs_perm_zip c₂ p₂ h₂).symm)
  have heq := @List.eq_of_perm_of_sorted (String × ℚ) (fun x y => y.2 < x.2)
    ⟨fun a b hab hba => absurd (hab.trans hba) (lt_irrefl _)⟩ _ _ hpm hs₁ hs₂
  rw [top3_eq_take_sorted, top3_eq_take_sorted, heq]

/-- C6 witness: the amended invariance applied to a concrete mapping with
distinct probabilities under the swap of the two classes. -/
theorem top3_perm_invariant_witness :
    top3 ["Cold", "Flu"] [mkRat 1 4, mkRat 3 4] =
      top3 ["Flu", "Cold"] [mkRat 3 4, mkRat 1 4] :=
  top3_perm_invariant ["Cold", "Flu"] ["Flu", "Cold"]
    [mkRat 1 4, mkRat 3 4] [mkRat 3 4, mkRat 1 4] rfl rfl (by decide) (by decide)

theorem diagnose_eq (sys : DiagnosisSystem) (symptoms : List String)
    (first : String × ℚ) (rest : List (String × ℚ))
    (h : top3 sys.model.classes
        (sys.model.predictProba (encode sys.symptom_columns symptoms)) =
      first :: rest) :
    sys.diagnose symptoms =
      .ok ⟨first.1, first.2, first :: rest,
        lookupDisease sys.diseases_df first.1,
        recommendedMedicines sys.medicines_df first.1⟩ := by
  rw [DiagnosisSystem.diagnose]
  split
  · rename_i hnil
    exact absurd (h.symm.trans hnil) (by simp)
  · rename_i f r heq
    rw [h] at heq
    injection heq with e1 e2
    rw [← e1, ← e2]

/-- C7: whenever the classifier exposes at least one and fewer than 3 disease
classes, `diagnose` succeeds and returns exactly one `(disease, confidence)`
pair per class — a permutation of the full class/probability pairing, with no
padding — ordered by probability descending. -/
theorem diagnose_fewer_than_three (sys : DiagnosisSystem) (symptoms : List String)
    (p : List ℚ)
    (hp : p = sys.model.predictProba (encode sys.symptom_columns symptoms))
    (hlen : sys.model.classes.length = p.length)
    (hpos : 0 < p.length) (hlt : p.length < 3) :
    ∃ r, sys.diagnose symptoms = .ok r ∧
      r.possible_diagnoses.length = p.length ∧
      r.possible_diagnoses.Perm (sys.model.classes.zip p) ∧
      r.possible_diagnoses.Pairwise (fun x y : String × ℚ => y.2 ≤ x.2) := by
  subst hp
  set p := sys.model.predictProba (encode sys.symptom_columns symptoms) with hp
  have hmin : (topIndices p).length = p.length := by
    rw [topIndices_length]; omega
  have hlen3 : (top3 sys.model.classes p).length = p.length := by
    rw [top3, List.length_map, hmin]
  have htperm : (topIndices p).Perm (List.range p.length) := by
    rw [topIndices, (show p.length - 3 = 0 by omega), List.drop_zero]
    exact (List.reverse_perm _).trans (argsortAsc_perm p)
  have hzip : (top3 sys.model.classes p).Perm (sys.model.classes.zip p) := by
    rw [top3]
    have h := htperm.map (fun i => (sys.model.classes.getD i "", p.getD i 0))
    rwa [map_range_zip _ _ hlen] at h
  have hpw : (top3 sys.model.classes p).Pairwise
      (fun x y : String × ℚ => y.2 ≤ x.2) := by
    rw [top3, List.pairwise_map]
    refine (topIndices_pairwise p).imp ?_
    intro i j h
    rcases h with h | ⟨h, _⟩
    · exact le_of_lt h
    · exact le_of_eq h
  obtain ⟨first, rest, hfr⟩ : ∃ f r, top3 sys.model.classes p = f :: r := by
    cases htop : top3 sys.model.classes p with
    | nil => rw [htop, List.length_nil] at hlen3; omega
    | cons f r => exact ⟨f, r, rfl⟩
  refine ⟨⟨first.1, first.2, first :: rest,
    lookupDisease sys.diseases_df first.1,
    recommendedMedicines sys.medicines_df first.1⟩,
    diagnose_eq sys symptoms first rest hfr, ?_, ?_, ?_⟩
  · show (first :: rest).length = p.length
    rw [← hfr]
    exact hlen3
  · show (first :: rest).Perm (sys.model.classes.zip p)
    rw [← hfr]
    exact hzip
  · show (first :: rest).Pairwise (fun x y : String × ℚ => y.2 ≤ x.2)
    rw [← hfr]
    exact hpw

/-- C7 witness: the two-class system `exSystem` — `diagnose` returns both
classes, descending. -/
theorem diagnose_fewer_than_three_witness :
    ∃ r, exSystem.diagnose ["fever"] = .ok r ∧
      r.possible_diagnoses.length = [mkRat 1 4, mkRat 3 4].length ∧
      r.possible_diagnoses.Perm
        (exSystem.model.classes.zip [mkRat 1 4, mkRat 3 4]) ∧
      r.possible_diagnoses.Pairwise (fun x y : String × ℚ => y.2 ≤ x.2) :=
  diagnose_fewer_than_three exSystem ["fever"] [mkRat 1 4, mkRat 3 4] rfl rfl
    (by decide) (by decide)

/-- C8: the medicine text matcher lowercases (and trims) the extracted text
and includes a catalog row exactly when the row's lowercased name occurs as a
contiguous substring of the processed text; with no match it returns the
`not_found` status carrying the processed text — a normal outcome, not an
error — and otherwise the `success` status with the matched rows. -/
theorem analyze_medicine_text_spec (ms : List MedicineRecord) (rawText : String) :
    (∀ m, m ∈ matchSet ms (pyLower (pyStrip rawText)) ↔
      m ∈ ms ∧ (pyLower m.name).data <:+: (pyLower (pyStrip rawText)).data) ∧
    (matchSet ms (pyLower (pyStrip rawText)) = [] →
      analyzeMedicineText ms rawText = .notFound (pyLower (pyStrip rawText))) ∧
    (matchSet ms (pyLower (pyStrip rawText)) ≠ [] →
      analyzeMedicineText ms rawText =
        .success (matchSet ms (pyLower (pyStrip rawText)))
          (pyLower (pyStrip rawText))) := by
  refine ⟨fun m => ?_, fun h => ?_, fun h => ?_⟩
  · rw [matchSet, List.mem_filter]
    simp only [decide_eq_true_eq]
  · simp only [analyzeMedicineText, h, List.isEmpty_nil, if_true]
  · simp only [analyzeMedicineText]
    rw [if_neg (fun hc => h (List.isEmpty_iff.mp hc))]

/-- C8 witness: the spec's own example — the text
`"I took ParAcetamol today"` matches the catalog entry named
`"Paracetamol"`. -/
theorem analyze_medicine_text_witness :
    analyzeMedicineText [paracetamolRec] "I took ParAcetamol today" =
      .success [paracetamolRec] "i took paracetamol today" := by
  have h := (analyze_medicine_text_spec [paracetamolRec]
    "I took ParAcetamol today").2.2 (by decide)
  rw [h]
  decide

/-- C9 counterexample: a source configuration whose symptom vocabulary file
loads as the *empty* list, while everything else is in order, is accepted —
initialization succeeds instead of failing as the claim demands for every
required reference source that loads empty. -/
theorem init_empty_vocabulary_counterexample :
    emptyVocabSources.loadColumns = .ok ([] : List String) ∧
    initDiagnosisSystem emptyVocabSources =
      .ok ⟨exClassifier, [], [exDisease], [exMedicine]⟩ :=
  ⟨rfl, rfl⟩

/-- C9 (amended): initialization succeeds exactly when the two model files
exist, all four loads succeed, and the disease and medicine tables are
nonempty — on success the system holds exactly the loaded model and tables.
Equivalently, it fails whenever the model artifact, vocabulary file, disease
table or medicine table is missing, unreadable or malformed, or when the
disease or medicine table loads empty; an empty symptom vocabulary, however,
is accepted. -/
theorem init_fail_fast (src : InitSources) (sys : DiagnosisSystem) :
    initDiagnosisSystem src = .ok sys ↔
      src.modelFileExists = true ∧ src.columnsFileExists = true ∧
      src.loadModel = .ok sys.model ∧
      src.loadColumns = .ok sys.symptom_columns ∧
      src.loadDiseases = .ok sys.diseases_df ∧
      src.loadMedicines = .ok sys.medicines_df ∧
      sys.diseases_df ≠ [] ∧ sys.medicines_df ≠ [] := by
  obtain ⟨me, ce, lm, lc, ld, lmed⟩ := src
  obtain ⟨m, cv, d, med⟩ := sys
  cases me with
  | false => simp [initDiagnosisSystem]
  | true =>
  cases ce with
  | false => simp [initDiagnosisSystem]
  | true =>
  cases lm with
  | error e => simp [initDiagnosisSystem, Bind.bind, Except.bind]
  | ok m₀ =>
  cases lc with
  | error e => simp [initDiagnosisSystem, Bind.bind, Except.bind]
  | ok cv₀ =>
  cases ld with
  | error e => simp [initDiagnosisSystem, Bind.bind, Except.bind]
  | ok d₀ =>
  cases lmed with
  | error e => simp [initDiagnosisSystem, Bind.bind, Except.bind]
  | ok med₀ =>
  rw [show initDiagnosisSystem ⟨true, true, .ok m₀, .ok cv₀, .ok d₀, .ok med₀⟩ =
      (if (d₀.isEmpty || med₀.isEmpty) = true then
        (.error "CSV files are empty" : Except String DiagnosisSystem)
      else .ok ⟨m₀, cv₀, d₀, med₀⟩) from rfl]
  by_cases hemp : (d₀.isEmpty || med₀.isEmpty) = true
  · rw [if_pos hemp]
    rw [Bool.or_eq_true, List.isEmpty_iff, List.isEmpty_iff] at hemp
    constructor
    · intro hc
      exact Except.noConfusion hc
    · rintro ⟨-, -, hm, hcv, hd, hmed, hdne, hmedne⟩
      injection hd with e3
      injection hmed with e4
      rcases hemp with h | h
      · exact absurd (e3 ▸ h) hdne
      · exact absurd (e4 ▸ h) hmedne
  · rw [if_neg hemp]
    rw [Bool.or_eq_true, List.isEmpty_iff, List.isEmpty_iff] at hemp
    push_neg at hemp
    constructor
    · intro hc
      injection hc with hc
      injection hc with e1 e2 e3 e4
      exact ⟨rfl, rfl, congrArg Except.ok e1, congrArg Except.ok e2,
        congrArg Except.ok e3, congrArg Except.ok e4,
        e3 ▸ hemp.1, e4 ▸ hemp.2⟩
    · rintro ⟨-, -, hm, hcv, hd, hmed, -, -⟩
      injection hm with e1
      injection hcv with e2
      injection hd with e3
      injection hmed with e4
      rw [e1, e2, e3, e4]

/-- C10: for every catalog and text, the matcher's result lists the matching
rows as a sublist of the catalog — in catalog row order — and contains
exactly the rows whose lowercased name is a substring of the text; the output
is thus a deterministic function of catalog and text. -/
theorem match_set_catalog_order (ms : List MedicineRecord) (text : String) :
    (matchSet ms text).Sublist ms ∧
    (∀ m, m ∈ matchSet ms text ↔
      m ∈ ms ∧ (pyLower m.name).data <:+: text.data) := by
  refine ⟨List.filter_sublist ms, fun m => ?_⟩
  rw [matchSet, List.mem_filter]
  simp only [decide_eq_true_eq]

end Medbot
